import Mathlib

/-!
Shallow embedding of the SPC computation engine of `src/index.tsx`
(Statistical Process Control charts: I-MR, Xbar-R, EWMA, CUSUM, plus
process-capability indices), together with theorems settling the claims
about it.  JavaScript numbers are idealized as rationals wherever the code
only uses field operations, and as reals where a square root is taken
(`Math.sqrt` in `calculateStdDev` and in the EWMA limit computation).
-/

/-- JavaScript `a || b` on integers: `b` when `a` is `0` (falsy), else `a`. -/
def jsOrInt (a b : ℤ) : ℤ := if a = 0 then b else a

/-- JavaScript `o?.f || d` on an optional natural: `d` when absent or `0`. -/
def optNatOr (o : Option ℕ) (d : ℕ) : ℕ :=
  match o with
  | none => d
  | some v => if v = 0 then d else v

/-- Function `calculateMean` (line 30): `data.reduce((a,b)=>a+b,0) / (data.length || 1)`.
The reduce is the list sum; `length || 1` guards the empty list. -/
def calculateMean {α : Type} [DivisionRing α] (data : List α) : α :=
  data.sum / (if data.length = 0 then 1 else (data.length : α))

/-- The sum of squared deviations in `calculateStdDev` (line 33):
`data.reduce((sq,n) => sq + Math.pow(n - mean, 2), 0)`. -/
def stdDevSumSq (data : List ℚ) : ℚ :=
  (data.map (fun n => (n - calculateMean data) ^ 2)).sum

/-- The denominator of `calculateStdDev` (line 33): `data.length - 1 || 1`. -/
def stdDevDenom (data : List ℚ) : ℤ :=
  jsOrInt ((data.length : ℤ) - 1) 1

/-- Function `calculateStdDev` (lines 31-34): square root of the sum of squared
deviations over `length - 1 || 1`. -/
noncomputable def calculateStdDev (data : List ℚ) : ℝ :=
  Real.sqrt (((stdDevSumSq data / (stdDevDenom data : ℚ) : ℚ) : ℝ))

/-! ## Ingestor: `parseLine` (lines 36-39)

`line.trim().split(/[,\t\s]+/)` followed by `parseFloat` on each part and a
filter dropping the `NaN` results.  `parseFloat` is modelled exactly per its
JavaScript semantics on finite decimal literals: it parses the longest
numeric prefix of the token (optional sign, digits with optional decimal
point, optional exponent) and fails only when the token has no such prefix.
(The `Infinity` production of `parseFloat`, not representable in `ℚ`, is not
modelled; no claim involves it.) -/

/-- A character the split regex `[,\t\s]+` matches: a comma or whitespace. -/
def isSepChar (c : Char) : Bool := c == ',' || c.isWhitespace

/-- Whether a character list starts with a separator character. -/
def headIsSep (p : Char → Bool) : List Char → Bool
  | [] => false
  | c :: _ => p c

/-- JavaScript `String.prototype.split` with a regex matching nonempty runs
of separator characters: a maximal separator run is one delimiter, and empty
fields at the boundaries are kept (e.g. `",a"` splits to `["", "a"]`). -/
def splitRuns (p : Char → Bool) : List Char → List (List Char)
  | [] => [[]]
  | c :: rest =>
    if p c then
      if headIsSep p rest then splitRuns p rest
      else [] :: splitRuns p rest
    else
      match splitRuns p rest with
      | [] => [[c]]
      | t :: ts => (c :: t) :: ts

/-- JavaScript `String.prototype.split` on a single character (used for
`rawData.split('\n')`): every occurrence delimits, empty fields kept. -/
def splitOnChar (sep : Char) : List Char → List (List Char)
  | [] => [[]]
  | c :: rest =>
    if c = sep then [] :: splitOnChar sep rest
    else
      match splitOnChar sep rest with
      | [] => [[c]]
      | t :: ts => (c :: t) :: ts

/-- JavaScript `String.prototype.trim`: strip whitespace from both ends. -/
def jsTrim (cs : List Char) : List Char :=
  ((cs.dropWhile Char.isWhitespace).reverse.dropWhile Char.isWhitespace).reverse

/-- Value of a string of decimal digits. -/
def digitsToNat (ds : List Char) : ℕ :=
  ds.foldl (fun a c => 10 * a + (c.toNat - 48)) 0

/-- The exponent part of a `parseFloat` literal, starting at a possible
`e`/`E`.  Returns the exponent value and the unconsumed remainder; when the
`e` is not followed by digits (e.g. `"1e"`, `"1e+"`), nothing is consumed
and the exponent is `0`, as in JavaScript. -/
def parseExpPart (s : List Char) : ℤ × List Char :=
  match s with
  | [] => (0, [])
  | e :: r =>
    if e = 'e' ∨ e = 'E' then
      let sgnRest : ℤ × List Char :=
        match r with
        | '+' :: r2 => (1, r2)
        | '-' :: r2 => (-1, r2)
        | _ => (1, r)
      let ds := sgnRest.2.takeWhile Char.isDigit
      if ds = [] then (0, s)
      else (sgnRest.1 * (digitsToNat ds : ℤ), sgnRest.2.dropWhile Char.isDigit)
    else (0, s)

/-- Core of JavaScript `parseFloat` on finite decimal literals: parse the
longest numeric prefix (sign, integer digits, optional `.` and fraction
digits, optional exponent).  Returns the value and the unconsumed remainder,
or `none` when the token has no digit in its mantissa (`parseFloat` yields
`NaN` there). -/
def parseNum (s : List Char) : Option (ℚ × List Char) :=
  let sgnRest : ℚ × List Char :=
    match s with
    | '+' :: r => (1, r)
    | '-' :: r => (-1, r)
    | _ => (1, s)
  let intDs := sgnRest.2.takeWhile Char.isDigit
  let s2 := sgnRest.2.dropWhile Char.isDigit
  let fracRest : List Char × List Char :=
    match s2 with
    | '.' :: r => (r.takeWhile Char.isDigit, r.dropWhile Char.isDigit)
    | _ => ([], s2)
  if intDs = [] ∧ fracRest.1 = [] then none
  else
    let ex := parseExpPart fracRest.2
    let mant : ℚ :=
      (digitsToNat intDs : ℚ) + (digitsToNat fracRest.1 : ℚ) / (10 : ℚ) ^ fracRest.1.length
    some (sgnRest.1 * mant * (10 : ℚ) ^ ex.1, ex.2)

/-- JavaScript `parseFloat(p)` modelled as an optional rational (`none` for `NaN`). -/
def parseFloatQ (s : List Char) : Option ℚ := (parseNum s).map Prod.fst

/-- Function `parseLine` on a character list: split the trimmed line on runs of
comma/tab/whitespace, `parseFloat` every part, keep the non-`NaN` results
(lines 36-39: `parts.map(p => parseFloat(p)).filter(n => !isNaN(n))`). -/
def parseLineChars (cs : List Char) : List ℚ :=
  ((splitRuns isSepChar (jsTrim cs)).map parseFloatQ).reduceOption

/-- Function `parseLine` (lines 36-39). -/
def parseLine (line : String) : List ℚ := parseLineChars line.toList

/-- Modelled from the spec: a token that is a valid number as a whole, i.e.
the numeric parse consumes the entire token.  This is the spec reading of
"tokens that are valid numbers" in section 4.1, used to compare against the
source's `parseFloat` prefix semantics. -/
def tokenIsNumber (s : List Char) : Bool :=
  match parseNum s with
  | some (_, []) => true
  | _ => false

/-- Modelled from the spec (section 4.1): `parseLine` as the spec words it —
keep exactly the tokens that are valid numbers and return their values in
order, silently discarding every other token. -/
def parseLineSpecModel (line : String) : List ℚ :=
  ((splitRuns isSepChar (jsTrim line.toList)).filter tokenIsNumber).map
    (fun t => (parseFloatQ t).getD 0)

/-! ## Types and the constants table (lines 5-28) -/

/-- The chart-type selector (line 6). -/
inductive ChartType : Type
  | imr | xbarR | ewma | cusum
deriving DecidableEq

/-- The phase selector (line 7). -/
inductive Phase : Type
  | phase1 | phase2
deriving DecidableEq

/-- The `DataPoint` interface (lines 9-16); optional fields are `Option`. -/
structure DataPoint : Type where
  id : ℕ
  value : ℚ
  rng : Option ℚ
  originalValue : Option ℚ
  sampleSize : Option ℕ
  subgroup : Option (List ℚ)
deriving DecidableEq

/-- One row of the control-chart constants table. -/
structure SpcConstants : Type where
  A2 : ℚ
  D3 : ℚ
  D4 : ℚ
  d2 : ℚ
deriving DecidableEq

/-- Table `STAT_CONSTANTS` (lines 18-28): the table keyed by subgroup size, with
entries only for sizes 2 through 10. -/
def STAT_CONSTANTS (n : ℕ) : Option SpcConstants :=
  match n with
  | 2 => some ⟨1.880, 0, 3.267, 1.128⟩
  | 3 => some ⟨1.023, 0, 2.574, 1.693⟩
  | 4 => some ⟨0.729, 0, 2.282, 2.059⟩
  | 5 => some ⟨0.577, 0, 2.114, 2.326⟩
  | 6 => some ⟨0.483, 0, 2.004, 2.534⟩
  | 7 => some ⟨0.419, 0.076, 1.924, 2.704⟩
  | 8 => some ⟨0.373, 0.136, 1.864, 2.847⟩
  | 9 => some ⟨0.337, 0.184, 1.816, 2.970⟩
  | 10 => some ⟨0.308, 0.223, 1.777, 3.078⟩
  | _ => none

/-- The constants selection at line 413: `STAT_CONSTANTS[n] || STAT_CONSTANTS[2]`
(an absent entry silently falls back to the n = 2 row). -/
def lookupConstants (n : ℕ) : SpcConstants :=
  match STAT_CONSTANTS n with
  | some c => c
  | none => (STAT_CONSTANTS 2).getD ⟨0, 0, 0, 0⟩

/-! ## Subgrouper: `processedData` (lines 375-392) -/

/-- JavaScript `Math.max(...l)` for a nonempty list: fold of the maximum. -/
def jsMaxList (l : List ℚ) : ℚ := l.foldl max l.headI

/-- JavaScript `Math.min(...l)` for a nonempty list: fold of the minimum. -/
def jsMinList (l : List ℚ) : ℚ := l.foldl min l.headI

/-- One emitted subgroup (the object pushed at line 386). -/
def mkSubgroup (id : ℕ) (chunk : List ℚ) (size : ℕ) : DataPoint :=
  ⟨id, calculateMean chunk, some (jsMaxList chunk - jsMinList chunk), none, some size, some chunk⟩

/-- The grouping loop of lines 383-388, with explicit fuel standing for the
loop bound (`fuel = values.length` suffices since each iteration consumes
`size ≥ 1` readings): slice consecutive windows of `size`, push a subgroup
only when the window is full (`chunk.length === size`), id numbering from
`nextId`. -/
def makeGroupsAux (size : ℕ) : ℕ → List ℚ → ℕ → List DataPoint
  | 0, _, _ => []
  | fuel + 1, values, nextId =>
    if size = 0 ∨ values.length < size then []
    else mkSubgroup nextId (values.take size) size ::
      makeGroupsAux size fuel (values.drop size) (nextId + 1)

/-- The grouped branch of `processedData` (lines 382-389). -/
def makeGroups (size : ℕ) (values : List ℚ) : List DataPoint :=
  makeGroupsAux size values.length values 1

/-- Flag `isGrouped` (line 378): Xbar-R is always grouped; EWMA/CUSUM are grouped
when the subgroup size exceeds 1. -/
def isGrouped (ct : ChartType) (subgroupSize : ℕ) : Bool :=
  ct = ChartType.xbarR ∨ ((ct = ChartType.ewma ∨ ct = ChartType.cusum) ∧ subgroupSize > 1)

/-- The effective window size (line 381):
`chartType === 'xbar-r' ? Math.max(2, subgroupSize) : subgroupSize`. -/
def groupSize (ct : ChartType) (subgroupSize : ℕ) : ℕ :=
  if ct = ChartType.xbarR then max 2 subgroupSize else subgroupSize

/-- Lines 376-377: split the raw text into lines, drop blank lines, parse
each line and concatenate in order. -/
def parseAll (raw : String) : List ℚ :=
  (((splitOnChar '\n' raw.toList).filter (fun l => jsTrim l ≠ [])).map parseLineChars).flatten

/-- Function `processedData` (lines 375-392): grouped charts get full windows of the
effective size; ungrouped charts get one `DataPoint` per reading with
1-based ids. -/
def processedData (raw : String) (ct : ChartType) (subgroupSize : ℕ) : List DataPoint :=
  let allValues := parseAll raw
  if isGrouped ct subgroupSize then makeGroups (groupSize ct subgroupSize) allValues
  else allValues.enum.map (fun p => ⟨p.1 + 1, p.2, none, some p.2, none, none⟩)

/-! ## ChartEngine: `chartStats` (lines 394-456) -/

/-- Line 396: `phase === 'phase2' && targetMean !== '' && targetSigma !== ''`
(the supplied baseline is used only when phase 2 is selected and both the
target mean and the target sigma are present). -/
def usePhase2 : Phase → Option ℚ → Option ℚ → Bool
  | Phase.phase2, some _, some _ => true
  | _, _, _ => false

/-- The moving ranges (lines 402-403): `|values[i] - values[i-1]|` for
`i = 1 .. N-1`. -/
def movingRanges (values : List ℚ) : List ℚ :=
  List.zipWith (fun a b => |b - a|) values values.tail

/-- The quantities computed by the I-MR branch (lines 400-407): individuals
chart center/limits and the secondary moving-range chart. -/
structure ImrOut : Type where
  mean : ℚ
  sigma : ℚ
  cl : ℚ
  ucl : ℚ
  lcl : ℚ
  meanMR : ℚ
  mrUcl : ℚ
  mrLcl : ℚ
  mrCl : ℚ
  mrData : List (ℕ × ℚ)
deriving DecidableEq

/-- The I-MR branch of `chartStats` (lines 400-407). -/
def imrStats (phase : Phase) (tm ts : Option ℚ) (values : List ℚ) : ImrOut :=
  let u2 := usePhase2 phase tm ts
  let mean := if u2 then tm.getD 0 else calculateMean values
  let mrs := movingRanges values
  let meanMR := calculateMean mrs
  let sigma := if u2 then ts.getD 0 else meanMR / 1.128
  ⟨mean, sigma, mean, mean + 3 * sigma, mean - 3 * sigma, meanMR,
    3.267 * meanMR, 0, meanMR, mrs.enum.map (fun p => (p.1 + 2, p.2))⟩

/-- The quantities computed by the Xbar-R branch (lines 408-416). -/
structure XbarOut : Type where
  mean : ℚ
  sigma : ℚ
  cl : ℚ
  ucl : ℚ
  lcl : ℚ
  meanRange : ℚ
  rUcl : ℚ
  rLcl : ℚ
  rCl : ℚ
  n : ℕ
  constants : SpcConstants
deriving DecidableEq

/-- The Xbar-R branch of `chartStats` (lines 408-416); note sigma is always
`meanRange / d2` (the supplied target sigma is never consulted here), and
`n` is `processedData[0]?.sampleSize || 2`. -/
def xbarStats (phase : Phase) (tm ts : Option ℚ) (processed : List DataPoint) : XbarOut :=
  let u2 := usePhase2 phase tm ts
  let values := processed.map (fun d => d.value)
  let ranges := processed.map (fun d => (d.rng).getD 0)
  let meanVal := if u2 then tm.getD 0 else calculateMean values
  let meanRange := calculateMean ranges
  let n := optNatOr (processed.head?.bind (fun d => d.sampleSize)) 2
  let c := lookupConstants n
  ⟨meanVal, meanRange / c.d2, meanVal, meanVal + c.A2 * meanRange,
    meanVal - c.A2 * meanRange, meanRange, c.D4 * meanRange, c.D3 * meanRange,
    meanRange, n, c⟩

/-- The three series the EWMA branch pushes point by point (lines 421-431):
the statistic `z` and the time-varying upper/lower limits. -/
structure EwmaOut : Type where
  points : List ℚ
  uclSeq : List ℝ
  lclSeq : List ℝ

/-- The EWMA `forEach` loop (lines 425-431), with `i` the 0-based index and
`z` the running statistic: `z = λ·x + (1-λ)·z`, then
`term = sqrt((λ/(2-λ))·(1-(1-λ)^(2(i+1))))` and the two limits
`mean ± L·σ·term` are pushed. -/
noncomputable def ewmaGo (lam L mean : ℚ) (sigma : ℝ) : ℕ → ℚ → List ℚ → EwmaOut
  | _, _, [] => ⟨[], [], []⟩
  | i, z, x :: rest =>
    let z2 := lam * x + (1 - lam) * z
    let term : ℝ := Real.sqrt (((lam / (2 - lam)) * (1 - (1 - lam) ^ (2 * (i + 1))) : ℚ))
    let r := ewmaGo lam L mean sigma (i + 1) z2 rest
    ⟨z2 :: r.points, ((mean : ℝ) + (L : ℝ) * sigma * term) :: r.uclSeq,
      ((mean : ℝ) - (L : ℝ) * sigma * term) :: r.lclSeq⟩

/-- Result of the EWMA branch (lines 417-433). -/
structure EwmaStatsOut : Type where
  out : EwmaOut
  cl : ℚ
  mean : ℚ
  sigma : ℝ

/-- The EWMA branch of `chartStats` (lines 417-433): baseline per phase
(sigma is `calculateStdDev` in phase 1), then the recurrence starting from
`z = mean` at index 0. -/
noncomputable def ewmaStats (phase : Phase) (tm ts : Option ℚ) (lam L : ℚ)
    (values : List ℚ) : EwmaStatsOut :=
  let u2 := usePhase2 phase tm ts
  let mean := if u2 then tm.getD 0 else calculateMean values
  let sigma : ℝ := if u2 then ((ts.getD 0 : ℚ) : ℝ) else calculateStdDev values
  ⟨ewmaGo lam L mean sigma 0 mean values, mean, mean, sigma⟩

/-- The CUSUM `forEach` loop (lines 441-446) over the two accumulators:
`cp = max(0, x - (mean+K) + cp)` and `cm = max(0, (mean-K) - x + cm)`,
with every updated value pushed. -/
def cusumLoop {α : Type} [LinearOrderedField α] (mean K : α) :
    α → α → List α → List α × List α
  | _, _, [] => ([], [])
  | cp, cm, x :: rest =>
    let cp2 := max 0 (x - (mean + K) + cp)
    let cm2 := max 0 ((mean - K) - x + cm)
    let r := cusumLoop mean K cp2 cm2 rest
    (cp2 :: r.1, cm2 :: r.2)

/-- The CUSUM series with both accumulators started at 0 (line 439). -/
def cusumSeries {α : Type} [LinearOrderedField α] (values : List α) (mean K : α) :
    List α × List α :=
  cusumLoop mean K 0 0 values

/-- Result of the CUSUM branch (lines 434-452). -/
structure CusumOut : Type where
  cpData : List ℝ
  cmData : List ℝ
  H : ℝ
  mean : ℚ
  sigma : ℝ

/-- The CUSUM branch of `chartStats` (lines 434-452): baseline per phase,
`K = k·σ`, `H = h·σ`, then the two-sided tabular loop. -/
noncomputable def cusumStats (phase : Phase) (tm ts : Option ℚ) (k h : ℚ)
    (values : List ℚ) : CusumOut :=
  let u2 := usePhase2 phase tm ts
  let mean := if u2 then tm.getD 0 else calculateMean values
  let sigma : ℝ := if u2 then ((ts.getD 0 : ℚ) : ℝ) else calculateStdDev values
  let K := (k : ℝ) * sigma
  let H := (h : ℝ) * sigma
  let r := cusumSeries (values.map (fun x => (x : ℝ))) (mean : ℝ) K
  ⟨r.1, r.2, H, mean, sigma⟩

/-! ## CapabilityCalculator: `StatisticsDashboard` (lines 305-320) -/

/-- The four capability indices; each is independently nullable. -/
structure CapabilityResult : Type where
  cp : Option ℚ
  cpu : Option ℚ
  cpl : Option ℚ
  cpk : Option ℚ
deriving DecidableEq

/-- The capability computation of lines 312-319: everything null unless
`sigma > 0`; `cp` needs both limits, `cpu`/`cpl` each need one, and `cpk` is
the min of those of `cpu`/`cpl` that are present. -/
def capability (mean sigma : ℚ) (u l : Option ℚ) : CapabilityResult :=
  if sigma > 0 then
    let cp : Option ℚ :=
      match u, l with
      | some uu, some ll => some ((uu - ll) / (6 * sigma))
      | _, _ => none
    let cpu := u.map (fun uu => (uu - mean) / (3 * sigma))
    let cpl := l.map (fun ll => (mean - ll) / (3 * sigma))
    let cpk : Option ℚ :=
      match cpu, cpl with
      | some a, some b => some (min a b)
      | some a, none => some a
      | none, some b => some b
      | none, none => none
    ⟨cp, cpu, cpl, cpk⟩
  else ⟨none, none, none, none⟩

/-- Modelled from the spec (section 4.4, EWMA): the recurrence
`z_0 = mean`, `z_k = λ·x_k + (1-λ)·z_{k-1}` over the reading list. -/
def ewmaSpecZ (lam mean : ℚ) (values : List ℚ) : ℕ → ℚ
  | 0 => mean
  | k + 1 => lam * values.getD k 0 + (1 - lam) * ewmaSpecZ lam mean values k

/-- The EWMA limit radicand `(λ/(2-λ))·(1-(1-λ)^(2(i+1)))` at 0-based
index `i`. -/
def ewmaRad (lam : ℚ) (i : ℕ) : ℚ :=
  (lam / (2 - lam)) * (1 - (1 - lam) ^ (2 * (i + 1)))

/-- The previous value of a CUSUM accumulator series before index `i`
(the accumulators start at 0). -/
def cusumPrev {α : Type} [LinearOrderedField α] (l : List α) (i : ℕ) : α :=
  if i = 0 then 0 else l.getD (i - 1) 0

/-! ## Helper lemmas -/

/-- Default `DataPoint` used with `List.getD`. -/
def dpDefault : DataPoint := ⟨0, 0, none, none, none, none⟩

theorem usePhase2_phase1 (tm ts : Option ℚ) : usePhase2 Phase.phase1 tm ts = false := rfl

theorem usePhase2_missing (tm ts : Option ℚ) (h : tm = none ∨ ts = none) :
    usePhase2 Phase.phase2 tm ts = false := by
  rcases h with rfl | rfl
  · cases ts <;> rfl
  · cases tm <;> rfl

theorem usePhase2_true_iff (phase : Phase) (tm ts : Option ℚ) :
    usePhase2 phase tm ts = true ↔ phase = Phase.phase2 ∧ tm ≠ none ∧ ts ≠ none := by
  cases phase <;> cases tm <;> cases ts <;> simp [usePhase2]

/-! ## C10: phase-2 with a missing target silently falls back to phase 1 -/

/-- C10: if phase 2 is selected but the supplied baseline mean or sigma is
absent, every chart branch produces exactly its phase-1 output (the baseline
is estimated from the data); the supplied baseline is used only when phase 2
is selected and both values are present. -/
theorem phase2_fallback (tm ts : Option ℚ) (values : List ℚ)
    (processed : List DataPoint) (lam L k h : ℚ) (hmiss : tm = none ∨ ts = none) :
    usePhase2 Phase.phase2 tm ts = false
    ∧ imrStats Phase.phase2 tm ts values = imrStats Phase.phase1 tm ts values
    ∧ xbarStats Phase.phase2 tm ts processed = xbarStats Phase.phase1 tm ts processed
    ∧ ewmaStats Phase.phase2 tm ts lam L values = ewmaStats Phase.phase1 tm ts lam L values
    ∧ cusumStats Phase.phase2 tm ts k h values = cusumStats Phase.phase1 tm ts k h values
    ∧ (∀ (phase : Phase) (a b : Option ℚ),
        usePhase2 phase a b = true ↔ phase = Phase.phase2 ∧ a ≠ none ∧ b ≠ none) := by
  have hu : usePhase2 Phase.phase2 tm ts = usePhase2 Phase.phase1 tm ts := by
    rw [usePhase2_missing tm ts hmiss, usePhase2_phase1]
  refine ⟨usePhase2_missing tm ts hmiss, ?_, ?_, ?_, ?_, fun phase a b => usePhase2_true_iff phase a b⟩
  · unfold imrStats; rw [hu]
  · unfold xbarStats; rw [hu]
  · unfold ewmaStats; rw [hu]
  · unfold cusumStats; rw [hu]

/-- C10 witness: concrete instance with the target mean absent. -/
theorem phase2_fallback_witness :
    imrStats Phase.phase2 none (some 1) [1, 2] = imrStats Phase.phase1 none (some 1) [1, 2] :=
  (phase2_fallback none (some 1) [1, 2] [] 0 0 0 0 (Or.inl rfl)).2.1

/-! ## C7: capability indices -/

/-- C7: capability computation — when `sigma ≤ 0` every index is null; when
`sigma > 0`, `cp` needs both spec limits, `cpu`/`cpl` take their formula
exactly when their limit is present, and `cpk` is the min of the present
ones among `cpu`/`cpl` (null only when neither exists); a missing limit
never fails, it only nulls the dependent indices. -/
theorem capability_rules (mean sigma : ℚ) (u l : Option ℚ) :
    (sigma ≤ 0 → capability mean sigma u l = ⟨none, none, none, none⟩)
    ∧ (0 < sigma →
        ((u = none ∨ l = none) → (capability mean sigma u l).cp = none)
        ∧ (∀ a b, u = some a → l = some b →
            (capability mean sigma u l).cp = some ((a - b) / (6 * sigma)))
        ∧ (capability mean sigma u l).cpu = u.map (fun a => (a - mean) / (3 * sigma))
        ∧ (capability mean sigma u l).cpl = l.map (fun b => (mean - b) / (3 * sigma))
        ∧ (∀ a b, (capability mean sigma u l).cpu = some a →
            (capability mean sigma u l).cpl = some b →
            (capability mean sigma u l).cpk = some (min a b))
        ∧ (∀ a, (capability mean sigma u l).cpu = some a →
            (capability mean sigma u l).cpl = none →
            (capability mean sigma u l).cpk = some a)
        ∧ (∀ b, (capability mean sigma u l).cpu = none →
            (capability mean sigma u l).cpl = some b →
            (capability mean sigma u l).cpk = some b)
        ∧ ((capability mean sigma u l).cpu = none →
            (capability mean sigma u l).cpl = none →
            (capability mean sigma u l).cpk = none)) := by
  constructor
  · intro hs
    have : ¬ sigma > 0 := not_lt.mpr hs
    simp [capability, this]
  · intro hs
    cases u <;> cases l <;> simp [capability, hs]

/-- C7 witness: mean 10, sigma 1, USL 13, LSL 7 (the spec section 8 example);
instantiates the theorem with `0 < sigma` discharged. -/
theorem capability_rules_witness :
    (capability 10 1 (some 13) (some 7)).cpu = (some (13 : ℚ)).map (fun a => (a - 10) / (3 * 1)) :=
  ((capability_rules 10 1 (some 13) (some 7)).2 one_pos).2.2.1

/-! ## C9: standard deviation of a single reading -/

/-- C9: the standard-deviation estimator returns exactly 0 on a single
reading (no NaN), its denominator `length - 1 || 1` is never zero for fewer
than two readings, and a zero sigma propagates to all-null capability
indices instead of an error. -/
theorem stdDev_single_zero :
    (∀ x : ℚ, calculateStdDev [x] = 0)
    ∧ (∀ data : List ℚ, data.length < 2 → stdDevDenom data ≠ 0)
    ∧ (∀ (m : ℚ) (u l : Option ℚ), capability m 0 u l = ⟨none, none, none, none⟩) := by
  refine ⟨?_, ?_, ?_⟩
  · intro x
    have hm : calculateMean [x] = x := by simp [calculateMean]
    have hs : stdDevSumSq [x] = 0 := by simp [stdDevSumSq, hm]
    simp [calculateStdDev, hs]
  · intro data h
    rcases data with _ | ⟨a, _ | ⟨b, t⟩⟩
    · simp [stdDevDenom, jsOrInt]
    · simp [stdDevDenom, jsOrInt]
    · exact absurd h (by simp only [List.length_cons]; omega)
  · intro m u l
    simp [capability]

/-- C9 witness: the single reading 5. -/
theorem stdDev_single_zero_witness : calculateStdDev [(5 : ℚ)] = 0 :=
  stdDev_single_zero.1 5

/-! ## C1: out-of-range subgroup sizes silently reuse the n = 2 constants -/

/-- C1: the constants table has no entry for n = 11, yet the selection
`STAT_CONSTANTS[n] || STAT_CONSTANTS[2]` silently returns the n = 2 row, and
an Xbar-R run with subgroup size 11 therefore computes its limits from the
n = 2 constants without any signal, clamp or extrapolation — the code
contradicts the spec's required out-of-range policy. -/
theorem constants_fallback_n11 :
    STAT_CONSTANTS 11 = none
    ∧ lookupConstants 11 = lookupConstants 2
    ∧ lookupConstants 11 = ⟨1.880, 0, 3.267, 1.128⟩
    ∧ (xbarStats Phase.phase1 none none
        (processedData "1 2 3 4 5 6 7 8 9 10 11" ChartType.xbarR 11)).n = 11
    ∧ (xbarStats Phase.phase1 none none
        (processedData "1 2 3 4 5 6 7 8 9 10 11" ChartType.xbarR 11)).constants
        = ⟨1.880, 0, 3.267, 1.128⟩ := by
  refine ⟨rfl, rfl, ?_, ?_, ?_⟩ <;> with_unfolding_all rfl

/-! ## C2: subgroup sizes below 2 are clamped to 2, not defaulted to 5 -/

/-- C2 counterexample: with a supplied subgroup size of 1, ten readings are
grouped into five windows of size 2 — not two windows of the claimed default
size 5 — and the control-limit computation uses n = 2, not n = 5. -/
theorem xbar_default_counterexample :
    (processedData "1 2 3 4 5 6 7 8 9 10" ChartType.xbarR 1).map
        (fun d => (d.subgroup).getD []) = [[1,2],[3,4],[5,6],[7,8],[9,10]]
    ∧ ¬((processedData "1 2 3 4 5 6 7 8 9 10" ChartType.xbarR 1).map
        (fun d => ((d.subgroup).getD []).length) = [5, 5])
    ∧ (xbarStats Phase.phase1 none none
        (processedData "1 2 3 4 5 6 7 8 9 10" ChartType.xbarR 1)).n = 2
    ∧ (xbarStats Phase.phase1 none none
        (processedData "1 2 3 4 5 6 7 8 9 10" ChartType.xbarR 1)).n ≠ 5 := by
  refine ⟨?_, ?_, ?_, ?_⟩
  · with_unfolding_all rfl
  · with_unfolding_all decide
  · with_unfolding_all rfl
  · with_unfolding_all decide

theorem makeGroupsAux_sampleSize (size fuel : ℕ) :
    ∀ (values : List ℚ) (nextId : ℕ) (d : DataPoint),
      d ∈ makeGroupsAux size fuel values nextId → d.sampleSize = some size := by
  induction fuel with
  | zero => intro values nextId d h; simp [makeGroupsAux] at h
  | succ m ih =>
    intro values nextId d h
    rw [makeGroupsAux] at h
    by_cases hc : size = 0 ∨ values.length < size
    · simp [hc] at h
    · simp only [if_neg hc, List.mem_cons] at h
      rcases h with rfl | h
      · rfl
      · exact ih _ _ _ h

/-- C2 amended: for the Xbar-R chart a supplied subgroup size below 2 is
clamped to 2 (`Math.max(2, subgroupSize)`): grouping uses windows of size 2,
every emitted subgroup records sample size 2, and the control-limit
computation selects n = 2 and the n = 2 constants row. -/
theorem xbar_small_size_clamps (s : ℕ) (hs : s < 2) :
    groupSize ChartType.xbarR s = 2
    ∧ (∀ raw, processedData raw ChartType.xbarR s = processedData raw ChartType.xbarR 2)
    ∧ (∀ raw, ∀ d ∈ processedData raw ChartType.xbarR s, d.sampleSize = some 2)
    ∧ (∀ (raw : String) (phase : Phase) (tm ts : Option ℚ),
        (xbarStats phase tm ts (processedData raw ChartType.xbarR s)).n = 2
        ∧ (xbarStats phase tm ts (processedData raw ChartType.xbarR s)).constants
            = ⟨1.880, 0, 3.267, 1.128⟩) := by
  have hg : groupSize ChartType.xbarR s = 2 := by
    have h1 : groupSize ChartType.xbarR s = max 2 s := by simp [groupSize]
    rw [h1]
    exact Nat.max_eq_left (by omega)
  have hp : ∀ raw, processedData raw ChartType.xbarR s = processedData raw ChartType.xbarR 2 := by
    intro raw
    unfold processedData
    rw [hg]
    rfl
  have hmem : ∀ raw, ∀ d ∈ processedData raw ChartType.xbarR s, d.sampleSize = some 2 := by
    intro raw d hd
    rw [hp raw] at hd
    have hgrp : processedData raw ChartType.xbarR 2 = makeGroups 2 (parseAll raw) := rfl
    rw [hgrp] at hd
    exact makeGroupsAux_sampleSize 2 _ _ _ _ hd
  refine ⟨hg, hp, hmem, ?_⟩
  intro raw phase tm ts
  have hn : (xbarStats phase tm ts (processedData raw ChartType.xbarR s)).n = 2 := by
    have hx : (xbarStats phase tm ts (processedData raw ChartType.xbarR s)).n
        = optNatOr ((processedData raw ChartType.xbarR s).head?.bind (fun d => d.sampleSize)) 2 := rfl
    rw [hx]
    rcases hhead : (processedData raw ChartType.xbarR s).head? with _ | d
    · rfl
    · have hd : d ∈ processedData raw ChartType.xbarR s := List.mem_of_mem_head? hhead
      simp [optNatOr, hmem raw d hd]
  refine ⟨hn, ?_⟩
  have hc : (xbarStats phase tm ts (processedData raw ChartType.xbarR s)).constants
      = lookupConstants (xbarStats phase tm ts (processedData raw ChartType.xbarR s)).n := rfl
  rw [hc, hn]
  with_unfolding_all rfl

/-- C2 witness: instantiation at subgroup size 1. -/
theorem xbar_small_size_clamps_witness : groupSize ChartType.xbarR 1 = 2 :=
  (xbar_small_size_clamps 1 (by decide)).1

/-! ## C3: parseLine keeps every token with a numeric prefix -/

/-- C3 counterexample: the token `3x` is not a valid number (the spec-side
full-token parse rejects it), yet `parseLine` keeps it with value 3 because
JavaScript `parseFloat` parses the longest numeric prefix — so `parseLine`
does not return exactly the valid-number tokens. -/
theorem parseLine_counterexample :
    parseLine "3x" = [3]
    ∧ parseLineSpecModel "3x" = []
    ∧ parseLine "3x" ≠ parseLineSpecModel "3x" := by
  refine ⟨?_, ?_, ?_⟩
  · with_unfolding_all rfl
  · with_unfolding_all rfl
  · with_unfolding_all decide

/-- C3 amended: `parseLine` splits the trimmed line on runs of comma, tab or
whitespace and returns, in their original order, the `parseFloat` values of
exactly those tokens having a valid numeric prefix (the longest prefix is
parsed; tokens with no numeric prefix are silently discarded, no error is
raised); in particular `parseLine "a,1,b,2" = [1,2]` and
`parseLine "1,2  3\t4" = [1,2,3,4]`. -/
theorem parseLine_keeps_numeric (line : String) :
    parseLine line = (splitRuns isSepChar (jsTrim line.toList)).filterMap parseFloatQ
    ∧ parseLine "a,1,b,2" = [1, 2]
    ∧ parseLine "1,2  3\t4" = [1, 2, 3, 4] := by
  refine ⟨?_, ?_, ?_⟩
  · simp [parseLine, parseLineChars, List.reduceOption, List.filterMap_map]
  · with_unfolding_all rfl
  · with_unfolding_all rfl

/-! ## C4: the I-MR phase-1 computation -/

theorem movingRanges_length (values : List ℚ) :
    (movingRanges values).length = values.length - 1 := by
  simp [movingRanges]

theorem movingRanges_getD (values : List ℚ) (i : ℕ) (h : i + 1 < values.length) :
    (movingRanges values).getD i 0 = |values.getD (i + 1) 0 - values.getD i 0| := by
  have hl : i < (movingRanges values).length := by
    rw [movingRanges_length]; omega
  have h1 : i < values.length := by omega
  have h2 : i < values.tail.length := by
    simp [List.length_tail]; omega
  rw [List.getD_eq_getElem _ _ hl, List.getD_eq_getElem _ _ h, List.getD_eq_getElem _ _ h1]
  simp [movingRanges, List.getElem_zipWith, List.getElem_tail]

/-- C4: phase-1 I-MR on at least two readings — the baseline mean is the
arithmetic mean of all readings, the moving ranges are the `N-1` successive
absolute differences, `meanMR` is their mean, `sigma = meanMR / 1.128`, the
individuals chart is `mean ± 3·sigma` around `mean`, the MR chart is
`[0, 3.267·meanMR]` around `meanMR`; on `[10,12,11,13]` the stated numeric
values hold to within `1/100`. -/
theorem imr_phase1 (values : List ℚ) (tm ts : Option ℚ) (hN : 2 ≤ values.length) :
    (imrStats Phase.phase1 tm ts values).mean = values.sum / (values.length : ℚ)
    ∧ (movingRanges values).length = values.length - 1
    ∧ (∀ i, i + 1 < values.length →
        (movingRanges values).getD i 0 = |values.getD (i + 1) 0 - values.getD i 0|)
    ∧ (imrStats Phase.phase1 tm ts values).meanMR
        = (movingRanges values).sum / ((values.length - 1 : ℕ) : ℚ)
    ∧ (imrStats Phase.phase1 tm ts values).sigma
        = (imrStats Phase.phase1 tm ts values).meanMR / 1.128
    ∧ (imrStats Phase.phase1 tm ts values).cl = (imrStats Phase.phase1 tm ts values).mean
    ∧ (imrStats Phase.phase1 tm ts values).ucl
        = (imrStats Phase.phase1 tm ts values).mean + 3 * (imrStats Phase.phase1 tm ts values).sigma
    ∧ (imrStats Phase.phase1 tm ts values).lcl
        = (imrStats Phase.phase1 tm ts values).mean - 3 * (imrStats Phase.phase1 tm ts values).sigma
    ∧ (imrStats Phase.phase1 tm ts values).mrCl = (imrStats Phase.phase1 tm ts values).meanMR
    ∧ (imrStats Phase.phase1 tm ts values).mrUcl
        = 3.267 * (imrStats Phase.phase1 tm ts values).meanMR
    ∧ (imrStats Phase.phase1 tm ts values).mrLcl = 0
    ∧ (imrStats Phase.phase1 none none [10, 12, 11, 13]).mean = 11.5
    ∧ movingRanges [10, 12, 11, 13] = [2, 1, 2]
    ∧ |(imrStats Phase.phase1 none none [10, 12, 11, 13]).meanMR - 1.667| ≤ 1 / 100
    ∧ |(imrStats Phase.phase1 none none [10, 12, 11, 13]).sigma - 1.478| ≤ 1 / 100
    ∧ |(imrStats Phase.phase1 none none [10, 12, 11, 13]).ucl - 15.93| ≤ 1 / 100
    ∧ |(imrStats Phase.phase1 none none [10, 12, 11, 13]).lcl - 7.07| ≤ 1 / 100 := by
  have hne : values.length ≠ 0 := by omega
  have hmr : (movingRanges values).length ≠ 0 := by
    rw [movingRanges_length]; omega
  refine ⟨?_, movingRanges_length values, fun i h => movingRanges_getD values i h,
    ?_, rfl, rfl, rfl, rfl, rfl, rfl, rfl, ?_, ?_, ?_, ?_, ?_, ?_⟩
  · simp [imrStats, usePhase2, calculateMean, hne]
  · have h0 : (imrStats Phase.phase1 tm ts values).meanMR
        = calculateMean (movingRanges values) := rfl
    rw [h0, calculateMean, if_neg hmr, movingRanges_length]
  · with_unfolding_all rfl
  · with_unfolding_all rfl
  · with_unfolding_all decide
  · with_unfolding_all decide
  · with_unfolding_all decide
  · with_unfolding_all decide

/-- C4 witness: instantiation at `[10,12,11,13]`. -/
theorem imr_phase1_witness :
    (imrStats Phase.phase1 none none [10, 12, 11, 13]).mean
      = ([10, 12, 11, 13] : List ℚ).sum / (([10, 12, 11, 13] : List ℚ).length : ℚ) :=
  (imr_phase1 [10, 12, 11, 13] none none (by decide)).1

/-! ## C8: grouping walks full non-overlapping windows -/

theorem makeGroupsAux_length (size : ℕ) (hsz : 1 ≤ size) :
    ∀ (fuel : ℕ) (values : List ℚ) (nextId : ℕ), values.length ≤ fuel →
      (makeGroupsAux size fuel values nextId).length = values.length / size := by
  intro fuel
  induction fuel with
  | zero =>
    intro values nextId h
    have h0 : values.length = 0 := by omega
    rw [makeGroupsAux, h0, Nat.zero_div]
    rfl
  | succ m ih =>
    intro values nextId h
    rw [makeGroupsAux]
    by_cases hc : size = 0 ∨ values.length < size
    · rw [if_pos hc]
      rcases hc with hc | hc
    
      · omega
      · rw [Nat.div_eq_of_lt hc]
        rfl
    · rw [if_neg hc]
      push_neg at hc
      have hlen : (values.drop size).length ≤ m := by
        rw [List.length_drop]; omega
      rw [List.length_cons, ih (values.drop size) (nextId + 1) hlen, List.length_drop,
        Nat.div_eq_sub_div (by omega) hc.2]

theorem makeGroupsAux_getD (size : ℕ) (hsz : 1 ≤ size) :
    ∀ (fuel : ℕ) (values : List ℚ) (nextId i : ℕ), values.length ≤ fuel →
      i < values.length / size →
      (makeGroupsAux size fuel values nextId).getD i dpDefault
        = mkSubgroup (nextId + i) ((values.drop (i * size)).take size) size := by
  intro fuel
  induction fuel with
  | zero =>
    intro values nextId i h hi
    have h0 : values.length = 0 := by omega
    rw [h0, Nat.zero_div] at hi
    omega
  | succ m ih =>
    intro values nextId i h hi
    rw [makeGroupsAux]
    by_cases hc : size = 0 ∨ values.length < size
    · rcases hc with hc | hc
      · omega
      · rw [Nat.div_eq_of_lt hc] at hi
        omega
    · rw [if_neg hc]
      push_neg at hc
      cases i with
      | zero =>
        simp [List.getD_cons_zero]
      | succ j =>
        have hlen : (values.drop size).length ≤ m := by
          rw [List.length_drop]; omega
        have hdiv : values.length / size = (values.length - size) / size + 1 :=
          Nat.div_eq_sub_div (by omega) hc.2
        have hj : j < (values.drop size).length / size := by
          rw [List.length_drop]
          rw [hdiv] at hi
          omega
        rw [List.getD_cons_succ, ih (values.drop size) (nextId + 1) j hlen hj,
          List.drop_drop]
        have e1 : nextId + 1 + j = nextId + (j + 1) := by omega
        have e2 : size + j * size = (j + 1) * size := by ring
        rw [e1, e2]

theorem le_foldl_max (l : List ℚ) :
    ∀ a : ℚ, a ≤ l.foldl max a ∧ ∀ y ∈ l, y ≤ l.foldl max a := by
  induction l with
  | nil => intro a; exact ⟨le_refl a, by simp⟩
  | cons x t ih =>
    intro a
    simp only [List.foldl_cons]
    refine ⟨le_trans (le_max_left a x) (ih (max a x)).1, ?_⟩
    intro y hy
    rcases List.mem_cons.mp hy with rfl | hy
    · exact le_trans (le_max_right a y) (ih (max a y)).1
    · exact (ih (max a x)).2 y hy

theorem foldl_max_mem (l : List ℚ) :
    ∀ a : ℚ, l.foldl max a = a ∨ l.foldl max a ∈ l := by
  induction l with
  | nil => intro a; left; rfl
  | cons x t ih =>
    intro a
    simp only [List.foldl_cons]
    rcases ih (max a x) with h | h
    · rcases max_choice a x with hm | hm
      · left; rw [h, hm]
      · right; rw [h, hm]; exact List.mem_cons_self x t
    · right; exact List.mem_cons_of_mem x h

theorem foldl_min_le (l : List ℚ) :
    ∀ a : ℚ, l.foldl min a ≤ a ∧ ∀ y ∈ l, l.foldl min a ≤ y := by
  induction l with
  | nil => intro a; exact ⟨le_refl a, by simp⟩
  | cons x t ih =>
    intro a
    simp only [List.foldl_cons]
    refine ⟨le_trans (ih (min a x)).1 (min_le_left a x), ?_⟩
    intro y hy
    rcases List.mem_cons.mp hy with rfl | hy
    · exact le_trans (ih (min a y)).1 (min_le_right a y)
    · exact (ih (min a x)).2 y hy

theorem foldl_min_mem (l : List ℚ) :
    ∀ a : ℚ, l.foldl min a = a ∨ l.foldl min a ∈ l := by
  induction l with
  | nil => intro a; left; rfl
  | cons x t ih =>
    intro a
    simp only [List.foldl_cons]
    rcases ih (min a x) with h | h
    · rcases min_choice a x with hm | hm
      · left; rw [h, hm]
      · right; rw [h, hm]; exact List.mem_cons_self x t
    · right; exact List.mem_cons_of_mem x h

theorem headI_mem_self (l : List ℚ) (h : l ≠ []) : l.headI ∈ l := by
  cases l with
  | nil => exact absurd rfl h
  | cons x t => exact List.mem_cons_self x t

theorem jsMaxList_spec (l : List ℚ) (h : l ≠ []) :
    jsMaxList l ∈ l ∧ ∀ y ∈ l, y ≤ jsMaxList l := by
  constructor
  · rcases foldl_max_mem l l.headI with h1 | h1
    · rw [jsMaxList, h1]; exact headI_mem_self l h
    · exact h1
  · exact (le_foldl_max l l.headI).2

theorem jsMinList_spec (l : List ℚ) (h : l ≠ []) :
    jsMinList l ∈ l ∧ ∀ y ∈ l, jsMinList l ≤ y := by
  constructor
  · rcases foldl_min_mem l l.headI with h1 | h1
    · rw [jsMinList, h1]; exact headI_mem_self l h
    · exact h1
  · exact (foldl_min_le l l.headI).2

/-- C8: grouping with subgroup size `n ≥ 2` walks the readings in
consecutive non-overlapping windows of size `n`, emits one subgroup per full
window — with 1-based ids, the window itself, its arithmetic mean as value
and `max - min` as range — and drops any trailing remainder shorter than
`n`; `[1,2,3,4,5]` with `n = 2` yields exactly `[[1,2],[3,4]]`. -/
theorem group_full_windows (values : List ℚ) (n : ℕ) (hn : 2 ≤ n) :
    (makeGroups n values).length = values.length / n
    ∧ (∀ i, i < values.length / n →
        ((makeGroups n values).getD i dpDefault).subgroup
            = some ((values.drop (i * n)).take n)
        ∧ ((makeGroups n values).getD i dpDefault).id = i + 1
        ∧ ((values.drop (i * n)).take n).length = n
        ∧ ((makeGroups n values).getD i dpDefault).value
            = ((values.drop (i * n)).take n).sum / (n : ℚ)
        ∧ ((makeGroups n values).getD i dpDefault).rng
            = some (jsMaxList ((values.drop (i * n)).take n)
                - jsMinList ((values.drop (i * n)).take n))
        ∧ jsMaxList ((values.drop (i * n)).take n) ∈ (values.drop (i * n)).take n
        ∧ (∀ y ∈ (values.drop (i * n)).take n, y ≤ jsMaxList ((values.drop (i * n)).take n))
        ∧ jsMinList ((values.drop (i * n)).take n) ∈ (values.drop (i * n)).take n
        ∧ (∀ y ∈ (values.drop (i * n)).take n, jsMinList ((values.drop (i * n)).take n) ≤ y))
    ∧ (makeGroups 2 [1, 2, 3, 4, 5]).map (fun d => (d.subgroup).getD []) = [[1, 2], [3, 4]] := by
  have hsz : 1 ≤ n := by omega
  refine ⟨makeGroupsAux_length n hsz values.length values 1 (le_refl _), ?_, by with_unfolding_all rfl⟩
  intro i hi
  have hget : (makeGroups n values).getD i dpDefault
      = mkSubgroup (1 + i) ((values.drop (i * n)).take n) n :=
    makeGroupsAux_getD n hsz values.length values 1 i (le_refl _) hi
  have hwin : i * n + n ≤ values.length := by
    have h1 : i + 1 ≤ values.length / n := Nat.succ_le_of_lt hi
    calc i * n + n = (i + 1) * n := by ring
      _ ≤ (values.length / n) * n := Nat.mul_le_mul_right n h1
      _ ≤ values.length := Nat.div_mul_le_self _ _
  have hlen : ((values.drop (i * n)).take n).length = n := by
    rw [List.length_take, List.length_drop]
    omega
  have hne : (values.drop (i * n)).take n ≠ [] := by
    intro hemp
    rw [hemp] at hlen
    simp at hlen
    omega
  have hid : (1 : ℕ) + i = i + 1 := by omega
  refine ⟨?_, ?_, hlen, ?_, ?_, (jsMaxList_spec _ hne).1, (jsMaxList_spec _ hne).2,
    (jsMinList_spec _ hne).1, (jsMinList_spec _ hne).2⟩
  · rw [hget]; rfl
  · rw [hget, hid]; rfl
  · rw [hget]
    show calculateMean ((values.drop (i * n)).take n) = _
    rw [calculateMean, hlen, if_neg (by omega)]
  · rw [hget]; rfl

/-- C8 witness: instantiation at `[1,2,3,4,5]`, `n = 2`. -/
theorem group_full_windows_witness :
    (makeGroups 2 [1, 2, 3, 4, 5]).length = ([1, 2, 3, 4, 5] : List ℚ).length / 2 :=
  (group_full_windows [1, 2, 3, 4, 5] 2 (by decide)).1

/-! ## C6: CUSUM accumulator invariants -/

theorem cusumLoop_lengths {α : Type} [LinearOrderedField α] (mean K : α) :
    ∀ (values : List α) (cp cm : α),
      (cusumLoop mean K cp cm values).1.length = values.length
      ∧ (cusumLoop mean K cp cm values).2.length = values.length := by
  intro values
  induction values with
  | nil => intro cp cm; constructor <;> rfl
  | cons x rest ih =>
    intro cp cm
    constructor <;> simp [cusumLoop, (ih _ _).1, (ih _ _).2]

theorem cusumLoop_nonneg {α : Type} [LinearOrderedField α] (mean K : α) :
    ∀ (values : List α) (cp cm : α),
      (∀ y ∈ (cusumLoop mean K cp cm values).1, 0 ≤ y)
      ∧ (∀ y ∈ (cusumLoop mean K cp cm values).2, 0 ≤ y) := by
  intro values
  induction values with
  | nil => intro cp cm; constructor <;> intro y hy <;> simp [cusumLoop] at hy
  | cons x rest ih =>
    intro cp cm
    constructor <;> intro y hy <;> simp only [cusumLoop, List.mem_cons] at hy
    · rcases hy with rfl | hy
      · exact le_max_left 0 _
      · exact (ih _ _).1 y hy
    · rcases hy with rfl | hy
      · exact le_max_left 0 _
      · exact (ih _ _).2 y hy

theorem cusumLoop_fst_getD {α : Type} [LinearOrderedField α] (mean K : α) :
    ∀ (values : List α) (cp cm : α) (i : ℕ), i < values.length →
      (cusumLoop mean K cp cm values).1.getD i 0
        = max 0 (values.getD i 0 - (mean + K)
            + (if i = 0 then cp else (cusumLoop mean K cp cm values).1.getD (i - 1) 0)) := by
  intro values
  induction values with
  | nil => intro cp cm i h; simp at h
  | cons x rest ih =>
    intro cp cm i h
    have hstep : (cusumLoop mean K cp cm (x :: rest)).1
        = (max 0 (x - (mean + K) + cp))
          :: (cusumLoop mean K (max 0 (x - (mean + K) + cp))
              (max 0 ((mean - K) - x + cm)) rest).1 := by
      simp [cusumLoop]
    cases i with
    | zero => simp [hstep]
    | succ j =>
      have hj : j < rest.length := by
        simp only [List.length_cons] at h; omega
      rw [hstep, List.getD_cons_succ, ih _ _ j hj, List.getD_cons_succ]
      simp only [Nat.succ_ne_zero, if_false, Nat.succ_sub_one]
      cases j with
      | zero => simp
      | succ m => simp

theorem cusumLoop_snd_getD {α : Type} [LinearOrderedField α] (mean K : α) :
    ∀ (values : List α) (cp cm : α) (i : ℕ), i < values.length →
      (cusumLoop mean K cp cm values).2.getD i 0
        = max 0 ((mean - K) - values.getD i 0
            + (if i = 0 then cm else (cusumLoop mean K cp cm values).2.getD (i - 1) 0)) := by
  intro values
  induction values with
  | nil => intro cp cm i h; simp at h
  | cons x rest ih =>
    intro cp cm i h
    have hstep : (cusumLoop mean K cp cm (x :: rest)).2
        = (max 0 ((mean - K) - x + cm))
          :: (cusumLoop mean K (max 0 (x - (mean + K) + cp))
              (max 0 ((mean - K) - x + cm)) rest).2 := by
      simp [cusumLoop]
    cases i with
    | zero => simp [hstep]
    | succ j =>
      have hj : j < rest.length := by
        simp only [List.length_cons] at h; omega
      rw [hstep, List.getD_cons_succ, ih _ _ j hj, List.getD_cons_succ]
      simp only [Nat.succ_ne_zero, if_false, Nat.succ_sub_one]
      cases j with
      | zero => simp
      | succ m => simp

/-- C6: for every CUSUM computation (any readings, baseline mean and slack
`K = k·sigma`, in any linear ordered field, covering the code's real-number
instantiation): both accumulators start at 0 (`cusumPrev _ 0 = 0`), every
emitted `C+`/`C-` value is nonnegative (clamping at 0), each emitted value
satisfies the `max(0, ·)` recurrence, and whenever
`C+(i-1) + (x_i - (mean+K)) ≥ 0` the emitted `C+(i)` equals exactly that
sum (so it never exceeds it). -/
theorem cusum_invariants {α : Type} [LinearOrderedField α] (values : List α) (mean K : α) :
    (cusumSeries values mean K).1.length = values.length
    ∧ (cusumSeries values mean K).2.length = values.length
    ∧ (∀ y ∈ (cusumSeries values mean K).1, 0 ≤ y)
    ∧ (∀ y ∈ (cusumSeries values mean K).2, 0 ≤ y)
    ∧ (∀ i, i < values.length →
        (cusumSeries values mean K).1.getD i 0
          = max 0 (values.getD i 0 - (mean + K) + cusumPrev (cusumSeries values mean K).1 i)
        ∧ (cusumSeries values mean K).2.getD i 0
          = max 0 ((mean - K) - values.getD i 0 + cusumPrev (cusumSeries values mean K).2 i)
        ∧ (0 ≤ values.getD i 0 - (mean + K) + cusumPrev (cusumSeries values mean K).1 i →
            (cusumSeries values mean K).1.getD i 0
              = values.getD i 0 - (mean + K) + cusumPrev (cusumSeries values mean K).1 i)) := by
  refine ⟨(cusumLoop_lengths mean K values 0 0).1, (cusumLoop_lengths mean K values 0 0).2,
    (cusumLoop_nonneg mean K values 0 0).1, (cusumLoop_nonneg mean K values 0 0).2, ?_⟩
  intro i hi
  have h1 : (cusumSeries values mean K).1.getD i 0
      = max 0 (values.getD i 0 - (mean + K) + cusumPrev (cusumSeries values mean K).1 i) := by
    rw [cusumPrev]
    exact cusumLoop_fst_getD mean K values 0 0 i hi
  have h2 : (cusumSeries values mean K).2.getD i 0
      = max 0 ((mean - K) - values.getD i 0 + cusumPrev (cusumSeries values mean K).2 i) := by
    rw [cusumPrev]
    exact cusumLoop_snd_getD mean K values 0 0 i hi
  refine ⟨h1, h2, ?_⟩
  intro hpos
  rw [h1, max_eq_right hpos]

/-- C6 witness: instantiation at `[4,1]`, mean 2, `K = 1` over `ℚ`. -/
theorem cusum_invariants_witness :
    (cusumSeries ([4, 1] : List ℚ) 2 1).1.length = ([4, 1] : List ℚ).length :=
  (cusum_invariants ([4, 1] : List ℚ) 2 1).1

/-! ## C5: EWMA recurrence and time-varying limits -/

theorem ewmaSpecZ_shift (lam z x : ℚ) (rest : List ℚ) :
    ∀ k : ℕ, ewmaSpecZ lam z (x :: rest) (k + 1)
      = ewmaSpecZ lam (lam * x + (1 - lam) * z) rest k := by
  intro k
  induction k with
  | zero => simp [ewmaSpecZ]
  | succ m ih =>
    have hL : ewmaSpecZ lam z (x :: rest) (m + 1 + 1)
        = lam * (x :: rest).getD (m + 1) 0
          + (1 - lam) * ewmaSpecZ lam z (x :: rest) (m + 1) := rfl
    have hR : ewmaSpecZ lam (lam * x + (1 - lam) * z) rest (m + 1)
        = lam * rest.getD m 0
          + (1 - lam) * ewmaSpecZ lam (lam * x + (1 - lam) * z) rest m := rfl
    rw [hL, hR, ih, List.getD_cons_succ]

theorem ewmaGo_points (lam L mean : ℚ) (sigma : ℝ) :
    ∀ (values : List ℚ) (i : ℕ) (z : ℚ),
      (ewmaGo lam L mean sigma i z values).points
        = (List.range values.length).map (fun j => ewmaSpecZ lam z values (j + 1)) := by
  intro values
  induction values with
  | nil => intro i z; simp [ewmaGo]
  | cons x rest ih =>
    intro i z
    simp only [ewmaGo, List.length_cons, List.range_succ_eq_map, List.map_cons, List.map_map]
    refine List.cons_eq_cons.mpr ⟨?_, ?_⟩
    · simp [ewmaSpecZ]
    · rw [ih (i + 1) (lam * x + (1 - lam) * z)]
      apply List.map_congr_left
      intro j hj
      show ewmaSpecZ lam (lam * x + (1 - lam) * z) rest (j + 1)
          = ewmaSpecZ lam z (x :: rest) (j + 1 + 1)
      rw [ewmaSpecZ_shift lam z x rest (j + 1)]

theorem ewmaGo_ucl (lam L mean : ℚ) (sigma : ℝ) :
    ∀ (values : List ℚ) (i : ℕ) (z : ℚ),
      (ewmaGo lam L mean sigma i z values).uclSeq
        = (List.range values.length).map
            (fun j => (mean : ℝ) + (L : ℝ) * sigma * Real.sqrt ((ewmaRad lam (i + j) : ℚ) : ℝ)) := by
  intro values
  induction values with
  | nil => intro i z; simp [ewmaGo]
  | cons x rest ih =>
    intro i z
    simp only [ewmaGo, List.length_cons, List.range_succ_eq_map, List.map_cons, List.map_map]
    refine List.cons_eq_cons.mpr ⟨?_, ?_⟩
    · rw [show i + 0 = i from rfl]
      rfl
    · rw [ih (i + 1) (lam * x + (1 - lam) * z)]
      apply List.map_congr_left
      intro j hj
      have e1 : i + 1 + j = i + (j + 1) := by omega
      rw [e1]
      rfl

theorem ewmaGo_lcl (lam L mean : ℚ) (sigma : ℝ) :
    ∀ (values : List ℚ) (i : ℕ) (z : ℚ),
      (ewmaGo lam L mean sigma i z values).lclSeq
        = (List.range values.length).map
            (fun j => (mean : ℝ) - (L : ℝ) * sigma * Real.sqrt ((ewmaRad lam (i + j) : ℚ) : ℝ)) := by
  intro values
  induction values with
  | nil => intro i z; simp [ewmaGo]
  | cons x rest ih =>
    intro i z
    simp only [ewmaGo, List.length_cons, List.range_succ_eq_map, List.map_cons, List.map_map]
    refine List.cons_eq_cons.mpr ⟨?_, ?_⟩
    · rw [show i + 0 = i from rfl]
      rfl
    · rw [ih (i + 1) (lam * x + (1 - lam) * z)]
      apply List.map_congr_left
      intro j hj
      have e1 : i + 1 + j = i + (j + 1) := by omega
      rw [e1]
      rfl

/-- C5: for every EWMA computation with `λ ∈ (0,1]` and `L > 0`: the emitted
statistic is exactly the recurrence `z_0 = mean`,
`z_i = λ·x_i + (1-λ)·z_{i-1}` (one point per reading), and the emitted
control limits are per-point sequences (length `N`, not scalars) with
`upper_j = mean + L·σ·sqrt((λ/(2-λ))·(1-(1-λ)^(2(j+1))))` and
`lower_j` its mirror image. -/
theorem ewma_recurrence_and_limits (phase : Phase) (tm ts : Option ℚ) (lam L : ℚ)
    (values : List ℚ) (hlam0 : 0 < lam) (hlam1 : lam ≤ 1) (hL : 0 < L) :
    ewmaSpecZ lam (ewmaStats phase tm ts lam L values).mean values 0
        = (ewmaStats phase tm ts lam L values).mean
    ∧ (∀ k : ℕ, ewmaSpecZ lam (ewmaStats phase tm ts lam L values).mean values (k + 1)
        = lam * values.getD k 0
          + (1 - lam) * ewmaSpecZ lam (ewmaStats phase tm ts lam L values).mean values k)
    ∧ (ewmaStats phase tm ts lam L values).out.points
        = (List.range values.length).map
            (fun j => ewmaSpecZ lam (ewmaStats phase tm ts lam L values).mean values (j + 1))
    ∧ (ewmaStats phase tm ts lam L values).out.uclSeq
        = (List.range values.length).map
            (fun j => ((ewmaStats phase tm ts lam L values).mean : ℝ)
              + (L : ℝ) * (ewmaStats phase tm ts lam L values).sigma
                * Real.sqrt ((ewmaRad lam j : ℚ) : ℝ))
    ∧ (ewmaStats phase tm ts lam L values).out.lclSeq
        = (List.range values.length).map
            (fun j => ((ewmaStats phase tm ts lam L values).mean : ℝ)
              - (L : ℝ) * (ewmaStats phase tm ts lam L values).sigma
                * Real.sqrt ((ewmaRad lam j : ℚ) : ℝ))
    ∧ (ewmaStats phase tm ts lam L values).out.points.length = values.length
    ∧ (ewmaStats phase tm ts lam L values).out.uclSeq.length = values.length
    ∧ (ewmaStats phase tm ts lam L values).out.lclSeq.length = values.length := by
  have hpts : (ewmaStats phase tm ts lam L values).out.points
      = (List.range values.length).map
          (fun j => ewmaSpecZ lam (ewmaStats phase tm ts lam L values).mean values (j + 1)) :=
    ewmaGo_points lam L (ewmaStats phase tm ts lam L values).mean
      (ewmaStats phase tm ts lam L values).sigma values 0
      (ewmaStats phase tm ts lam L values).mean
  have hucl : (ewmaStats phase tm ts lam L values).out.uclSeq
      = (List.range values.length).map
          (fun j => ((ewmaStats phase tm ts lam L values).mean : ℝ)
            + (L : ℝ) * (ewmaStats phase tm ts lam L values).sigma
              * Real.sqrt ((ewmaRad lam j : ℚ) : ℝ)) := by
    have h0 := ewmaGo_ucl lam L (ewmaStats phase tm ts lam L values).mean
      (ewmaStats phase tm ts lam L values).sigma values 0
      (ewmaStats phase tm ts lam L values).mean
    simpa using h0
  have hlcl : (ewmaStats phase tm ts lam L values).out.lclSeq
      = (List.range values.length).map
          (fun j => ((ewmaStats phase tm ts lam L values).mean : ℝ)
            - (L : ℝ) * (ewmaStats phase tm ts lam L values).sigma
              * Real.sqrt ((ewmaRad lam j : ℚ) : ℝ)) := by
    have h0 := ewmaGo_lcl lam L (ewmaStats phase tm ts lam L values).mean
      (ewmaStats phase tm ts lam L values).sigma values 0
      (ewmaStats phase tm ts lam L values).mean
    simpa using h0
  refine ⟨rfl, fun k => rfl, hpts, hucl, hlcl, ?_, ?_, ?_⟩
  · rw [hpts]; simp
  · rw [hucl]; simp
  · rw [hlcl]; simp

/-- C5 witness: instantiation at `λ = 1`, `L = 1`, one reading. -/
theorem ewma_recurrence_and_limits_witness :
    (ewmaStats Phase.phase1 none none 1 1 [5]).out.points
      = (List.range ([5] : List ℚ).length).map
          (fun j => ewmaSpecZ 1 (ewmaStats Phase.phase1 none none 1 1 [5]).mean [5] (j + 1)) :=
  (ewma_recurrence_and_limits Phase.phase1 none none 1 1 [5] one_pos (le_refl 1) one_pos).2.2.1
